import Mathlib

/-
Shallow embedding of the Advanced Inventory Management System (src/python.py):
the Item data model, the Stock catalog with its full-rewrite JSON store,
the record_sale / record_return transaction handlers, and the invoice
renderer of Bill.generate_pdf.

Modelling choices: a Python dict keyed by item_id is an association list of
items with first-match lookup; assignment replaces the first entry with the
same key in place or appends a fresh key; del removes the first matching
entry.  Python int is ℤ, Python float price is ℚ.  The persisted items.json
file is an optional list of serialized item records; save_items overwrites it
wholesale, load_items rebuilds the dict from the list in order.  The uncaught
KeyError raised by Bill.generate_pdf on a missing item_id is an Except.error.
-/

namespace Inventory

/-- An inventory item: mirrors class Item in src/python.py. -/
structure Item where
  item_id : String
  name : String
  category : String
  price : ℚ
  quantity : ℤ
  deriving DecidableEq, Repr

/-- A serialized item record, the shape written to items.json. -/
structure ItemDict where
  item_id : String
  name : String
  category : String
  price : ℚ
  quantity : ℤ
  deriving DecidableEq, Repr

/-- Item.to_dict: serialize every field. -/
def Item.to_dict (it : Item) : ItemDict :=
  { item_id := it.item_id, name := it.name, category := it.category,
    price := it.price, quantity := it.quantity }

/-- Item.from_dict: rebuild an Item from a serialized record. -/
def Item.from_dict (d : ItemDict) : Item :=
  { item_id := d.item_id, name := d.name, category := d.category,
    price := d.price, quantity := d.quantity }

/-- Lookup self.items[item_id]: first entry whose item_id matches, if any. -/
def findItem : List Item → String → Option Item
  | [], _ => none
  | it :: rest, id => if it.item_id = id then some it else findItem rest id

/-- Dict assignment self.items[it.item_id] = it: replace the entry with the
same key in place, or append a fresh key at the end. -/
def dictInsert : List Item → Item → List Item
  | [], it => [it]
  | x :: xs, it => if x.item_id = it.item_id then it :: xs else x :: dictInsert xs it

/-- Dict deletion del self.items[item_id]: drop the first matching entry. -/
def dictErase : List Item → String → List Item
  | [], _ => []
  | x :: xs, id => if x.item_id = id then xs else x :: dictErase xs id

/-- In-place field mutation of self.items[item_id]: apply f to the first
matching entry, leaving everything else untouched. -/
def modifyItem : List Item → String → (Item → Item) → List Item
  | [], _, _ => []
  | x :: xs, id, f => if x.item_id = id then f x :: xs else x :: modifyItem xs id f

/-- The item_id keys of a catalog, in order. -/
def itemIds (c : List Item) : List String := c.map Item.item_id

/-- The dict invariant: item_id keys are pairwise distinct. -/
def NodupIds (c : List Item) : Prop := (itemIds c).Nodup

instance (c : List Item) : Decidable (NodupIds c) := by
  unfold NodupIds; infer_instance

/-- The state of class Stock together with the items.json file: the in-memory
catalog and the persisted store (none when items.json does not exist). -/
structure StockState where
  items : List Item
  store : Option (List ItemDict)
  deriving DecidableEq, Repr

/-- Stock.save_items: overwrite items.json with every item serialized, in
dict-value order. -/
def save_items (s : StockState) : StockState :=
  { s with store := some (s.items.map Item.to_dict) }

/-- The dict comprehension of Stock.load_items: insert each deserialized
record into an initially empty dict, in file order. -/
def buildDict (ds : List ItemDict) : List Item :=
  ds.foldl (fun acc d => dictInsert acc (Item.from_dict d)) []

/-- Stock.load_items: empty catalog when the file is absent, otherwise the
dict built from the file contents. -/
def load_items : Option (List ItemDict) → List Item
  | none => []
  | some ds => buildDict ds

/-- Stock.add_item: insert or overwrite by item_id, then persist. -/
def add_item (s : StockState) (it : Item) : StockState :=
  save_items { s with items := dictInsert s.items it }

/-- Python truthiness of a string: non-empty. -/
def truthyStr (v : String) : Bool := !v.isEmpty

/-- Python truthiness of a price: nonzero. -/
def truthyRat (v : ℚ) : Bool := decide (v ≠ 0)

/-- Python truthiness of an integer: nonzero. -/
def truthyInt (v : ℤ) : Bool := decide (v ≠ 0)

/-- One optional field of Stock.update_item: the field is overwritten only
when a value is supplied and that value is truthy. -/
def applyOpt {α : Type} (truthy : α → Bool) (supplied : Option α) (old : α) : α :=
  match supplied with
  | none => old
  | some v => if truthy v then v else old

/-- Stock.update_item: when item_id is present, overwrite each field whose
supplied value is truthy and persist; when absent, do nothing at all. -/
def update_item (s : StockState) (id : String) (nm cat : Option String)
    (pr : Option ℚ) (qty : Option ℤ) : StockState :=
  if (findItem s.items id).isSome then
    save_items { s with items := modifyItem s.items id (fun it =>
      { it with
        name := applyOpt truthyStr nm it.name
        category := applyOpt truthyStr cat it.category
        price := applyOpt truthyRat pr it.price
        quantity := applyOpt truthyInt qty it.quantity }) }
  else s

/-- Stock.remove_item: delete and persist when present, do nothing when
absent. -/
def remove_item (s : StockState) (id : String) : StockState :=
  if (findItem s.items id).isSome then
    save_items { s with items := dictErase s.items id }
  else s

/-- Outcome printed by the record_sale command handler. -/
inductive SaleResult where
  | itemNotFound : SaleResult
  | insufficientStock (available requested : ℤ) : SaleResult
  | success : SaleResult
  deriving DecidableEq, Repr

/-- The record_sale handler: error and return early when the item is missing
or stock is insufficient, otherwise decrement the quantity and persist.
The sale price is only used for the transient Sale object. -/
def record_sale (s : StockState) (id : String) (q : ℤ) (pr : ℚ) :
    SaleResult × StockState :=
  match findItem s.items id with
  | none => (SaleResult.itemNotFound, s)
  | some it =>
    if it.quantity < q then
      (SaleResult.insufficientStock it.quantity q, s)
    else
      (SaleResult.success,
        save_items { s with
          items := modifyItem s.items id (fun x => { x with quantity := x.quantity - q }) })

/-- Outcome printed by the record_return command handler. -/
inductive ReturnResult where
  | itemNotFound : ReturnResult
  | success : ReturnResult
  deriving DecidableEq, Repr

/-- The record_return handler: error when the item is missing, otherwise
increment the quantity unconditionally and persist.  Price and reason only
feed the transient Return object. -/
def record_return (s : StockState) (id : String) (q : ℤ) (pr : ℚ)
    (reason : String) : ReturnResult × StockState :=
  match findItem s.items id with
  | none => (ReturnResult.itemNotFound, s)
  | some _ =>
    (ReturnResult.success,
      save_items { s with
        items := modifyItem s.items id (fun x => { x with quantity := x.quantity + q }) })

/-- One ad-hoc sale specification handed to generate_invoice. -/
structure SaleLine where
  item_id : String
  quantity : ℤ
  price : ℚ
  deriving DecidableEq, Repr

/-- One rendered invoice line: the item name looked up from the catalog plus
the sale's own quantity and price. -/
structure InvoiceLine where
  name : String
  quantity : ℤ
  price : ℚ
  deriving DecidableEq, Repr

/-- The for-loop of Bill.generate_pdf: render each sale line, accumulating
the running total; a missing item_id raises KeyError, modelled as an
Except.error carrying the offending key. -/
def renderLoop (catalog : List Item) :
    List SaleLine → ℚ → List InvoiceLine → Except String (List InvoiceLine × ℚ)
  | [], total, acc => Except.ok (acc.reverse, total)
  | sl :: rest, total, acc =>
    match findItem catalog sl.item_id with
    | none => Except.error sl.item_id
    | some it =>
      renderLoop catalog rest (total + (sl.quantity : ℚ) * sl.price)
        ({ name := it.name, quantity := sl.quantity, price := sl.price } :: acc)

/-- Bill.generate_pdf: render all sale lines against the current catalog
snapshot, starting from total 0, and return the lines with the final total. -/
def generate_pdf (catalog : List Item) (sales : List SaleLine) :
    Except String (List InvoiceLine × ℚ) :=
  renderLoop catalog sales 0 []

/-- The mathematical total of a sale list: sum of quantity times price. -/
def invoiceTotal (sales : List SaleLine) : ℚ :=
  (sales.map (fun sl => (sl.quantity : ℚ) * sl.price)).sum

/-- A concrete item used to instantiate the theorems. -/
def itemA : Item :=
  { item_id := "A", name := "Widget", category := "Tools", price := 10, quantity := 5 }

/-- A second concrete item. -/
def itemB : Item :=
  { item_id := "B", name := "Gadget", category := "Toys", price := 5, quantity := 7 }

/-- A third concrete item, absent from the sample state. -/
def itemC : Item :=
  { item_id := "C", name := "Bolt", category := "Parts", price := 1, quantity := 9 }

/-- A concrete well-formed stock state holding itemA and itemB, with the
store already in sync. -/
def s1 : StockState :=
  { items := [itemA, itemB], store := some [itemA.to_dict, itemB.to_dict] }

/-- A concrete sale list over itemA and itemB. -/
def salesAB : List SaleLine :=
  [{ item_id := "A", quantity := 2, price := 10 }, { item_id := "B", quantity := 1, price := 5 }]

@[simp]
theorem to_dict_item_id (it : Item) : (Item.to_dict it).item_id = it.item_id := rfl

@[simp]
theorem from_dict_item_id (d : ItemDict) : (Item.from_dict d).item_id = d.item_id := rfl

@[simp]
theorem from_dict_to_dict (it : Item) : Item.from_dict (Item.to_dict it) = it := rfl

theorem findItem_modifyItem_self (c : List Item) (id : String) (f : Item → Item)
    (hf : ∀ x, (f x).item_id = x.item_id) :
    findItem (modifyItem c id f) id = (findItem c id).map f := by
  induction c with
  | nil => rfl
  | cons x xs ih =>
    by_cases h : x.item_id = id
    · simp [modifyItem, findItem, h, hf x]
    · simp [modifyItem, findItem, h, ih]

theorem findItem_modifyItem_ne (c : List Item) (id j : String) (f : Item → Item)
    (hf : ∀ x, (f x).item_id = x.item_id) (hj : j ≠ id) :
    findItem (modifyItem c id f) j = findItem c j := by
  induction c with
  | nil => rfl
  | cons x xs ih =>
    by_cases h : x.item_id = id
    · have hid : id ≠ j := fun e => hj e.symm
      simp [modifyItem, findItem, h, hf x, hid]
    · simp only [modifyItem, if_neg h, findItem]
      by_cases h2 : x.item_id = j
      · simp [h2]
      · simp [h2, ih]

theorem modifyItem_eq_self (c : List Item) (id : String) (f : Item → Item)
    (h : ∀ x, f x = x) : modifyItem c id f = c := by
  induction c with
  | nil => rfl
  | cons x xs ih =>
    by_cases hx : x.item_id = id
    · simp [modifyItem, hx, h x]
    · simp [modifyItem, hx, ih]

theorem itemIds_modifyItem (c : List Item) (id : String) (f : Item → Item)
    (hf : ∀ x, (f x).item_id = x.item_id) :
    itemIds (modifyItem c id f) = itemIds c := by
  induction c with
  | nil => rfl
  | cons x xs ih =>
    by_cases h : x.item_id = id
    · simp [modifyItem, itemIds, h, hf x]
    · simpa [modifyItem, itemIds, h] using ih

theorem mem_itemIds_dictInsert (c : List Item) (it : Item) (a : String)
    (h : a ∈ itemIds (dictInsert c it)) : a ∈ itemIds c ∨ a = it.item_id := by
  induction c with
  | nil => simpa [dictInsert, itemIds] using h
  | cons x xs ih =>
    by_cases hx : x.item_id = it.item_id
    · simp only [dictInsert, if_pos hx, itemIds, List.map_cons, List.mem_cons] at h ⊢
      rcases h with h | h
      · exact Or.inr h
      · exact Or.inl (Or.inr h)
    · simp only [dictInsert, if_neg hx, itemIds, List.map_cons, List.mem_cons] at h ⊢
      rcases h with h | h
      · exact Or.inl (Or.inl h)
      · rcases ih h with h2 | h2
        · exact Or.inl (Or.inr h2)
        · exact Or.inr h2

theorem nodupIds_dictInsert (c : List Item) (it : Item) (h : NodupIds c) :
    NodupIds (dictInsert c it) := by
  induction c with
  | nil => simp [dictInsert, NodupIds, itemIds]
  | cons x xs ih =>
    simp only [NodupIds, itemIds, List.map_cons, List.nodup_cons] at h
    by_cases hx : x.item_id = it.item_id
    · simp only [NodupIds, dictInsert, if_pos hx, itemIds, List.map_cons, List.nodup_cons]
      exact ⟨hx ▸ h.1, h.2⟩
    · simp only [NodupIds, dictInsert, if_neg hx, itemIds, List.map_cons, List.nodup_cons]
      refine ⟨fun hmem => ?_, ih h.2⟩
      rcases mem_itemIds_dictInsert xs it _ hmem with h2 | h2
      · exact h.1 h2
      · exact hx h2

theorem itemIds_dictErase_sublist (c : List Item) (id : String) :
    List.Sublist (itemIds (dictErase c id)) (itemIds c) := by
  induction c with
  | nil => simp [dictErase]
  | cons x xs ih =>
    by_cases hx : x.item_id = id
    · simp only [dictErase, if_pos hx, itemIds, List.map_cons]
      exact List.sublist_cons_self _ _
    · simp only [dictErase, if_neg hx, itemIds, List.map_cons]
      exact ih.cons₂ _

theorem nodupIds_dictErase (c : List Item) (id : String) (h : NodupIds c) :
    NodupIds (dictErase c id) :=
  List.Nodup.sublist (itemIds_dictErase_sublist c id) h

theorem dictInsert_of_not_mem (c : List Item) (it : Item)
    (h : it.item_id ∉ itemIds c) : dictInsert c it = c ++ [it] := by
  induction c with
  | nil => rfl
  | cons x xs ih =>
    simp only [itemIds, List.map_cons, List.mem_cons, not_or] at h
    have hx : x.item_id ≠ it.item_id := fun e => h.1 e.symm
    simp only [dictInsert, if_neg hx, List.cons_append]
    rw [ih h.2]

theorem buildDict_go (ds : List ItemDict) :
    ∀ acc : List Item, (∀ d ∈ ds, d.item_id ∉ itemIds acc) →
    (ds.map ItemDict.item_id).Nodup →
    ds.foldl (fun a d => dictInsert a (Item.from_dict d)) acc =
      acc ++ ds.map Item.from_dict := by
  induction ds with
  | nil => intro acc _ _; simp
  | cons d ds ih =>
    intro acc hacc hnodup
    simp only [List.map_cons, List.nodup_cons] at hnodup
    have hstep : dictInsert acc (Item.from_dict d) = acc ++ [Item.from_dict d] :=
      dictInsert_of_not_mem acc _ (by simpa using hacc d (List.mem_cons_self d ds))
    simp only [List.foldl_cons, hstep]
    rw [ih (acc ++ [Item.from_dict d]) ?fresh hnodup.2]
    · simp
    case fresh =>
      intro d2 hd2
      have heq : itemIds (acc ++ [Item.from_dict d]) = itemIds acc ++ [d.item_id] := by
        simp [itemIds]
      rw [heq]
      intro hmem
      rcases List.mem_append.mp hmem with h | h
      · exact hacc d2 (List.mem_cons_of_mem d hd2) h
      · exact hnodup.1
          (List.mem_singleton.mp h ▸ List.mem_map_of_mem ItemDict.item_id hd2)

theorem load_save (s : StockState) (h : NodupIds s.items) :
    load_items (save_items s).store = s.items := by
  show buildDict (s.items.map Item.to_dict) = s.items
  unfold buildDict
  rw [buildDict_go _ [] (by simp [itemIds]) ?nodup]
  · have hcomp : Item.from_dict ∘ Item.to_dict = id := by
      funext it; simp
    simp only [List.nil_append, List.map_map, hcomp, List.map_id]
  case nodup =>
    have hcomp : ItemDict.item_id ∘ Item.to_dict = Item.item_id := by
      funext it; rfl
    rw [List.map_map, hcomp]
    exact h

theorem record_sale_of_none (s : StockState) (id : String) (q : ℤ) (pr : ℚ)
    (h : findItem s.items id = none) :
    record_sale s id q pr = (SaleResult.itemNotFound, s) := by
  simp [record_sale, h]

theorem record_sale_of_insufficient (s : StockState) (id : String) (q : ℤ) (pr : ℚ)
    (it : Item) (h : findItem s.items id = some it) (hlt : it.quantity < q) :
    record_sale s id q pr = (SaleResult.insufficientStock it.quantity q, s) := by
  simp [record_sale, h, hlt]

theorem record_sale_of_ok (s : StockState) (id : String) (q : ℤ) (pr : ℚ)
    (it : Item) (h : findItem s.items id = some it) (hge : ¬ it.quantity < q) :
    record_sale s id q pr =
      (SaleResult.success,
        save_items { s with
          items := modifyItem s.items id (fun x => { x with quantity := x.quantity - q }) }) := by
  simp [record_sale, h, hge]

theorem record_sale_success_inv (s : StockState) (id : String) (q : ℤ) (pr : ℚ)
    (hs : (record_sale s id q pr).1 = SaleResult.success) :
    ∃ it, findItem s.items id = some it ∧ ¬ it.quantity < q := by
  cases hfind : findItem s.items id with
  | none =>
    rw [record_sale_of_none s id q pr hfind] at hs
    exact absurd hs (by simp)
  | some it =>
    by_cases hlt : it.quantity < q
    · rw [record_sale_of_insufficient s id q pr it hfind hlt] at hs
      exact absurd hs (by simp)
    · exact ⟨it, rfl, hlt⟩

theorem record_return_of_none (s : StockState) (id : String) (q : ℤ) (pr : ℚ)
    (reason : String) (h : findItem s.items id = none) :
    record_return s id q pr reason = (ReturnResult.itemNotFound, s) := by
  simp [record_return, h]

theorem record_return_of_some (s : StockState) (id : String) (q : ℤ) (pr : ℚ)
    (reason : String) (it : Item) (h : findItem s.items id = some it) :
    record_return s id q pr reason =
      (ReturnResult.success,
        save_items { s with
          items := modifyItem s.items id (fun x => { x with quantity := x.quantity + q }) }) := by
  simp [record_return, h]

theorem record_return_success_inv (s : StockState) (id : String) (q : ℤ) (pr : ℚ)
    (reason : String) (hs : (record_return s id q pr reason).1 = ReturnResult.success) :
    ∃ it, findItem s.items id = some it := by
  cases hfind : findItem s.items id with
  | none =>
    rw [record_return_of_none s id q pr reason hfind] at hs
    exact absurd hs (by simp)
  | some it => exact ⟨it, rfl⟩

theorem applyOpt_str (v : Option String) (old : String) :
    applyOpt truthyStr v old =
      match v with
      | none => old
      | some x => if x = "" then old else x := by
  cases v with
  | none => rfl
  | some x =>
    by_cases hx : x = ""
    · simp [applyOpt, truthyStr, String.isEmpty_iff, hx]
    · simp [applyOpt, truthyStr, String.isEmpty_iff, hx]

theorem applyOpt_rat (v : Option ℚ) (old : ℚ) :
    applyOpt truthyRat v old =
      match v with
      | none => old
      | some x => if x = 0 then old else x := by
  cases v with
  | none => rfl
  | some x =>
    by_cases hx : x = 0
    · simp [applyOpt, truthyRat, hx]
    · simp [applyOpt, truthyRat, hx]

theorem applyOpt_int (v : Option ℤ) (old : ℤ) :
    applyOpt truthyInt v old =
      match v with
      | none => old
      | some x => if x = 0 then old else x := by
  cases v with
  | none => rfl
  | some x =>
    by_cases hx : x = 0
    · simp [applyOpt, truthyInt, hx]
    · simp [applyOpt, truthyInt, hx]

theorem invoiceTotal_cons (sl : SaleLine) (rest : List SaleLine) :
    invoiceTotal (sl :: rest) = (sl.quantity : ℚ) * sl.price + invoiceTotal rest := by
  simp [invoiceTotal]

theorem renderLoop_error (catalog : List Item) (sales : List SaleLine) :
    ∀ (total : ℚ) (acc : List InvoiceLine),
    (∃ sl ∈ sales, findItem catalog sl.item_id = none) →
    ∃ e, renderLoop catalog sales total acc = Except.error e := by
  induction sales with
  | nil =>
    intro total acc h
    rcases h with ⟨sl, hmem, _⟩
    exact absurd hmem (List.not_mem_nil sl)
  | cons hd rest ih =>
    intro total acc h
    cases hfind : findItem catalog hd.item_id with
    | none => exact ⟨hd.item_id, by simp [renderLoop, hfind]⟩
    | some it =>
      rcases h with ⟨sl, hmem, hsl⟩
      rcases List.mem_cons.mp hmem with rfl | hmem2
      · rw [hfind] at hsl; cases hsl
      · have hrec := ih (total + (hd.quantity : ℚ) * hd.price)
          ({ name := it.name, quantity := hd.quantity, price := hd.price } :: acc)
          ⟨sl, hmem2, hsl⟩
        simpa [renderLoop, hfind] using hrec

theorem renderLoop_ok (catalog : List Item) (sales : List SaleLine)
    (h : ∀ sl ∈ sales, (findItem catalog sl.item_id).isSome) :
    ∀ (total : ℚ) (acc : List InvoiceLine),
    ∃ lines, renderLoop catalog sales total acc =
      Except.ok (lines, total + invoiceTotal sales) := by
  induction sales with
  | nil =>
    intro total acc
    exact ⟨acc.reverse, by simp [renderLoop, invoiceTotal]⟩
  | cons hd rest ih =>
    intro total acc
    have hhd := h hd (List.mem_cons_self hd rest)
    cases hfind : findItem catalog hd.item_id with
    | none => rw [hfind] at hhd; cases hhd
    | some it =>
      obtain ⟨lines, hl⟩ := ih (fun sl hsl => h sl (List.mem_cons_of_mem hd hsl))
        (total + (hd.quantity : ℚ) * hd.price)
        ({ name := it.name, quantity := hd.quantity, price := hd.price } :: acc)
      refine ⟨lines, ?_⟩
      have hstep : renderLoop catalog (hd :: rest) total acc =
          renderLoop catalog rest (total + (hd.quantity : ℚ) * hd.price)
            ({ name := it.name, quantity := hd.quantity, price := hd.price } :: acc) := by
        simp [renderLoop, hfind]
      rw [hstep, hl, invoiceTotal_cons, ← add_assoc]

/-- C1: record_sale with an item_id absent from the catalog fails with
ItemNotFound and leaves the state (catalog and store) unchanged; with the
item present but on-hand quantity below the requested quantity it fails with
InsufficientStock and leaves the state unchanged; otherwise it succeeds and
the item's on-hand quantity decreases by exactly the requested quantity. -/
theorem record_sale_spec (s : StockState) (id : String) (q : ℤ) (pr : ℚ) :
    (findItem s.items id = none → record_sale s id q pr = (SaleResult.itemNotFound, s)) ∧
    (∀ it, findItem s.items id = some it → it.quantity < q →
      record_sale s id q pr = (SaleResult.insufficientStock it.quantity q, s)) ∧
    (∀ it, findItem s.items id = some it → ¬ it.quantity < q →
      (record_sale s id q pr).1 = SaleResult.success ∧
      findItem (record_sale s id q pr).2.items id =
        some { it with quantity := it.quantity - q }) := by
  refine ⟨fun h => record_sale_of_none s id q pr h,
    fun it h hlt => record_sale_of_insufficient s id q pr it h hlt,
    fun it h hge => ?_⟩
  rw [record_sale_of_ok s id q pr it h hge]
  refine ⟨rfl, ?_⟩
  show findItem (modifyItem s.items id _) id = _
  rw [findItem_modifyItem_self s.items id
    (fun x => { x with quantity := x.quantity - q }) (fun x => rfl), h]
  rfl

theorem record_sale_spec_witness :
    record_sale s1 "Z" 1 10 = (SaleResult.itemNotFound, s1) ∧
    record_sale s1 "A" 9 10 = (SaleResult.insufficientStock 5 9, s1) ∧
    ((record_sale s1 "A" 2 10).1 = SaleResult.success ∧
      findItem (record_sale s1 "A" 2 10).2.items "A" = some { itemA with quantity := 3 }) := by
  refine ⟨(record_sale_spec s1 "Z" 1 10).1 (by decide), ?_, ?_⟩
  · exact (record_sale_spec s1 "A" 9 10).2.1 itemA (by decide) (by decide)
  · exact (record_sale_spec s1 "A" 2 10).2.2 itemA (by decide) (by decide)

/-- C2: after every successful mutating operation (add, update on a present
item_id, remove on a present item_id, a successful record_sale, a successful
record_return) the persisted store deserializes back to exactly the
in-memory catalog. -/
theorem persisted_eq_catalog (s : StockState) (h : NodupIds s.items) :
    (∀ it, load_items (add_item s it).store = (add_item s it).items) ∧
    (∀ id nm cat pr qty, (findItem s.items id).isSome →
      load_items (update_item s id nm cat pr qty).store =
        (update_item s id nm cat pr qty).items) ∧
    (∀ id, (findItem s.items id).isSome →
      load_items (remove_item s id).store = (remove_item s id).items) ∧
    (∀ id q pr, (record_sale s id q pr).1 = SaleResult.success →
      load_items (record_sale s id q pr).2.store = (record_sale s id q pr).2.items) ∧
    (∀ id q pr reason, (record_return s id q pr reason).1 = ReturnResult.success →
      load_items (record_return s id q pr reason).2.store =
        (record_return s id q pr reason).2.items) := by
  refine ⟨?_, ?_, ?_, ?_, ?_⟩
  · intro it
    exact load_save _ (nodupIds_dictInsert s.items it h)
  · intro id nm cat pr qty hsome
    unfold update_item
    rw [if_pos hsome]
    refine load_save _ ?_
    show (itemIds (modifyItem s.items id _)).Nodup
    rw [itemIds_modifyItem s.items id
      (fun x =>
        { x with
          name := applyOpt truthyStr nm x.name
          category := applyOpt truthyStr cat x.category
          price := applyOpt truthyRat pr x.price
          quantity := applyOpt truthyInt qty x.quantity })
      (fun x => rfl)]
    exact h
  · intro id hsome
    unfold remove_item
    rw [if_pos hsome]
    exact load_save _ (nodupIds_dictErase s.items id h)
  · intro id q pr hsucc
    obtain ⟨it, hfind, hge⟩ := record_sale_success_inv s id q pr hsucc
    rw [record_sale_of_ok s id q pr it hfind hge]
    refine load_save _ ?_
    show (itemIds (modifyItem s.items id _)).Nodup
    rw [itemIds_modifyItem s.items id
      (fun x => { x with quantity := x.quantity - q }) (fun x => rfl)]
    exact h
  · intro id q pr reason hsucc
    obtain ⟨it, hfind⟩ := record_return_success_inv s id q pr reason hsucc
    rw [record_return_of_some s id q pr reason it hfind]
    refine load_save _ ?_
    show (itemIds (modifyItem s.items id _)).Nodup
    rw [itemIds_modifyItem s.items id
      (fun x => { x with quantity := x.quantity + q }) (fun x => rfl)]
    exact h

theorem persisted_eq_catalog_witness :
    load_items (add_item s1 itemC).store = (add_item s1 itemC).items ∧
    load_items (update_item s1 "A" none none none (some 2)).store =
      (update_item s1 "A" none none none (some 2)).items ∧
    load_items (remove_item s1 "B").store = (remove_item s1 "B").items ∧
    load_items (record_sale s1 "A" 2 10).2.store = (record_sale s1 "A" 2 10).2.items ∧
    load_items (record_return s1 "B" 4 5 "worn").2.store =
      (record_return s1 "B" 4 5 "worn").2.items := by
  have h := persisted_eq_catalog s1 (by decide)
  exact ⟨h.1 itemC, h.2.1 "A" none none none (some 2) (by decide),
    h.2.2.1 "B" (by decide), h.2.2.2.1 "A" 2 10 (by decide),
    h.2.2.2.2 "B" 4 5 "worn" (by decide)⟩

/-- C3: saving a set of items with pairwise distinct item_ids through the
Store and loading it back yields exactly the original mapping: same keys and
same field values for every item. -/
theorem store_roundtrip (s : StockState) (h : NodupIds s.items) :
    load_items (save_items s).store = s.items :=
  load_save s h

theorem store_roundtrip_witness : load_items (save_items s1).store = s1.items :=
  store_roundtrip s1 (by decide)

/-- C4: record_return on an absent item_id fails with ItemNotFound leaving
the state unchanged; on a present item_id it always succeeds and increases
the on-hand quantity by exactly the returned quantity, for every quantity,
with no upper bound and no dependence on prior sales. -/
theorem record_return_spec (s : StockState) (id : String) (q : ℤ) (pr : ℚ)
    (reason : String) :
    (findItem s.items id = none →
      record_return s id q pr reason = (ReturnResult.itemNotFound, s)) ∧
    (∀ it, findItem s.items id = some it →
      (record_return s id q pr reason).1 = ReturnResult.success ∧
      findItem (record_return s id q pr reason).2.items id =
        some { it with quantity := it.quantity + q }) := by
  refine ⟨fun h => record_return_of_none s id q pr reason h, fun it h => ?_⟩
  rw [record_return_of_some s id q pr reason it h]
  refine ⟨rfl, ?_⟩
  show findItem (modifyItem s.items id _) id = _
  rw [findItem_modifyItem_self s.items id
    (fun x => { x with quantity := x.quantity + q }) (fun x => rfl), h]
  rfl

theorem record_return_spec_witness :
    record_return s1 "Z" 3 2 "damaged" = (ReturnResult.itemNotFound, s1) ∧
    ((record_return s1 "A" 100 2 "damaged").1 = ReturnResult.success ∧
      findItem (record_return s1 "A" 100 2 "damaged").2.items "A" =
        some { itemA with quantity := 105 }) := by
  refine ⟨(record_return_spec s1 "Z" 3 2 "damaged").1 (by decide), ?_⟩
  exact (record_return_spec s1 "A" 100 2 "damaged").2 itemA (by decide)

/-- C5: update_item on an absent item_id is a silent no-op on the whole
state; on a present item_id it overwrites exactly the fields whose supplied
value is truthy — a supplied empty string or zero keeps the old value — and
every other item is untouched. -/
theorem update_item_spec (s : StockState) (id : String) (nm cat : Option String)
    (pr : Option ℚ) (qty : Option ℤ) :
    (findItem s.items id = none → update_item s id nm cat pr qty = s) ∧
    (∀ it, findItem s.items id = some it →
      ∃ it2, findItem (update_item s id nm cat pr qty).items id = some it2 ∧
        it2.item_id = it.item_id ∧
        it2.name = (match nm with
          | none => it.name
          | some v => if v = "" then it.name else v) ∧
        it2.category = (match cat with
          | none => it.category
          | some v => if v = "" then it.category else v) ∧
        it2.price = (match pr with
          | none => it.price
          | some v => if v = 0 then it.price else v) ∧
        it2.quantity = (match qty with
          | none => it.quantity
          | some v => if v = 0 then it.quantity else v)) ∧
    (∀ j, j ≠ id →
      findItem (update_item s id nm cat pr qty).items j = findItem s.items j) := by
  refine ⟨?_, ?_, ?_⟩
  · intro h
    unfold update_item
    rw [if_neg (by simp [h])]
  · intro it h
    have hsome : (findItem s.items id).isSome := by rw [h]; rfl
    unfold update_item
    rw [if_pos hsome]
    have hfind : findItem (modifyItem s.items id (fun x =>
        { x with
          name := applyOpt truthyStr nm x.name
          category := applyOpt truthyStr cat x.category
          price := applyOpt truthyRat pr x.price
          quantity := applyOpt truthyInt qty x.quantity })) id =
        some { it with
          name := applyOpt truthyStr nm it.name
          category := applyOpt truthyStr cat it.category
          price := applyOpt truthyRat pr it.price
          quantity := applyOpt truthyInt qty it.quantity } := by
      rw [findItem_modifyItem_self s.items id
        (fun x =>
          { x with
            name := applyOpt truthyStr nm x.name
            category := applyOpt truthyStr cat x.category
            price := applyOpt truthyRat pr x.price
            quantity := applyOpt truthyInt qty x.quantity })
        (fun x => rfl), h]
      rfl
    exact ⟨_, hfind, rfl, applyOpt_str nm it.name, applyOpt_str cat it.category,
      applyOpt_rat pr it.price, applyOpt_int qty it.quantity⟩
  · intro j hj
    unfold update_item
    by_cases hsome : (findItem s.items id).isSome
    · rw [if_pos hsome]
      exact findItem_modifyItem_ne s.items id j
        (fun x =>
          { x with
            name := applyOpt truthyStr nm x.name
            category := applyOpt truthyStr cat x.category
            price := applyOpt truthyRat pr x.price
            quantity := applyOpt truthyInt qty x.quantity })
        (fun x => rfl) hj
    · rw [if_neg hsome]

theorem update_item_spec_witness :
    update_item s1 "Z" (some "New") none none none = s1 ∧
    (∃ it2, findItem (update_item s1 "A" (some "") (some "Gear") (some 0) (some 9)).items "A" =
        some it2 ∧
      it2.item_id = "A" ∧ it2.name = "Widget" ∧ it2.category = "Gear" ∧
      it2.price = 10 ∧ it2.quantity = 9) ∧
    findItem (update_item s1 "A" (some "") (some "Gear") (some 0) (some 9)).items "B" =
      findItem s1.items "B" := by
  refine ⟨(update_item_spec s1 "Z" (some "New") none none none).1 (by decide), ?_, ?_⟩
  · obtain ⟨it2, hfind, h1, h2, h3, h4, h5⟩ :=
      (update_item_spec s1 "A" (some "") (some "Gear") (some 0) (some 9)).2.1 itemA (by decide)
    exact ⟨it2, hfind, h1, by simpa using h2, by simpa using h3,
      by simpa using h4, by simpa using h5⟩
  · exact (update_item_spec s1 "A" (some "") (some "Gear") (some 0) (some 9)).2.2 "B"
      (by decide)

/-- C6 counterexample: generating an invoice whose sale list references an
item_id absent from the catalog is not recovered: Bill.generate_pdf raises
an uncaught lookup error (modelled as Except.error) instead of completing
with a user-facing message. -/
theorem invoice_notfound_cex :
    generate_pdf [] [{ item_id := "X", quantity := 1, price := 1 }] = Except.error "X" ∧
    (generate_pdf [] [{ item_id := "X", quantity := 1, price := 1 }]).isOk = false :=
  ⟨rfl, rfl⟩

/-- C6 amended: an ItemNotFound condition is recovered at the command
boundary for record_sale and record_return — the handler reports the error
and returns with the state unchanged — but invoice generation with a sale
list referencing an absent item_id propagates an uncaught lookup error. -/
theorem notfound_boundary (s : StockState) (id : String) (q : ℤ) (pr : ℚ)
    (reason : String) (h : findItem s.items id = none) :
    record_sale s id q pr = (SaleResult.itemNotFound, s) ∧
    record_return s id q pr reason = (ReturnResult.itemNotFound, s) ∧
    (∀ catalog sales, (∃ sl ∈ sales, findItem catalog sl.item_id = none) →
      ∃ e, generate_pdf catalog sales = Except.error e) := by
  refine ⟨record_sale_of_none s id q pr h, record_return_of_none s id q pr reason h, ?_⟩
  intro catalog sales hmiss
  exact renderLoop_error catalog sales 0 [] hmiss

theorem notfound_boundary_witness :
    record_sale s1 "Z" 1 1 = (SaleResult.itemNotFound, s1) ∧
    record_return s1 "Z" 1 1 "late" = (ReturnResult.itemNotFound, s1) ∧
    (∃ e, generate_pdf s1.items [{ item_id := "Z", quantity := 1, price := 1 }] =
      Except.error e) := by
  have h := notfound_boundary s1 "Z" 1 1 "late" (by decide)
  exact ⟨h.1, h.2.1,
    h.2.2 s1.items [{ item_id := "Z", quantity := 1, price := 1 }]
      ⟨{ item_id := "Z", quantity := 1, price := 1 }, List.mem_singleton.mpr rfl, by decide⟩⟩

/-- C7: when every item_id of the sale list is present in the catalog, the
rendered invoice completes and its total is the sum over the sales of
quantity times price. -/
theorem invoice_total_spec (catalog : List Item) (sales : List SaleLine)
    (h : ∀ sl ∈ sales, (findItem catalog sl.item_id).isSome) :
    ∃ lines, generate_pdf catalog sales = Except.ok (lines, invoiceTotal sales) := by
  obtain ⟨lines, hl⟩ := renderLoop_ok catalog sales h 0 []
  exact ⟨lines, by rw [show generate_pdf catalog sales = renderLoop catalog sales 0 [] from rfl,
    hl, zero_add]⟩

theorem invoice_total_spec_witness :
    ∃ lines, generate_pdf [itemA, itemB] salesAB = Except.ok (lines, 25) := by
  obtain ⟨lines, hl⟩ := invoice_total_spec [itemA, itemB] salesAB (by decide)
  have h25 : invoiceTotal salesAB = 25 := by norm_num [invoiceTotal, salesAB]
  exact ⟨lines, by rw [hl, h25]⟩

/-- C8: remove_item on an absent item_id leaves the whole state, catalog and
persisted store alike, unchanged; update_item with no supplied fields leaves
every item of the catalog unchanged. -/
theorem remove_update_noop (s : StockState) (id : String) :
    (findItem s.items id = none → remove_item s id = s) ∧
    (update_item s id none none none none).items = s.items := by
  constructor
  · intro h
    unfold remove_item
    rw [if_neg (by simp [h])]
  · unfold update_item
    by_cases hsome : (findItem s.items id).isSome
    · rw [if_pos hsome]
      show modifyItem s.items id _ = s.items
      exact modifyItem_eq_self _ _ _ (fun x => rfl)
    · rw [if_neg hsome]

theorem remove_update_noop_witness :
    remove_item s1 "Z" = s1 ∧ (update_item s1 "A" none none none none).items = s1.items :=
  ⟨(remove_update_noop s1 "Z").1 (by decide), (remove_update_noop s1 "A").2⟩

/-- C9: a successful record_sale or record_return on item_id X changes only
the quantity of X: the key sequence of the catalog is unchanged (no item
added or removed), every other key maps to the same item, and X keeps its
item_id, name, category and price. -/
theorem sale_return_frame (s : StockState) (id : String) (q : ℤ) (pr : ℚ)
    (reason : String) :
    ((record_sale s id q pr).1 = SaleResult.success →
      itemIds (record_sale s id q pr).2.items = itemIds s.items ∧
      (∀ j, j ≠ id → findItem (record_sale s id q pr).2.items j = findItem s.items j) ∧
      (∀ it, findItem s.items id = some it →
        ∃ it2, findItem (record_sale s id q pr).2.items id = some it2 ∧
          it2.item_id = it.item_id ∧ it2.name = it.name ∧
          it2.category = it.category ∧ it2.price = it.price ∧
          it2.quantity = it.quantity - q)) ∧
    ((record_return s id q pr reason).1 = ReturnResult.success →
      itemIds (record_return s id q pr reason).2.items = itemIds s.items ∧
      (∀ j, j ≠ id →
        findItem (record_return s id q pr reason).2.items j = findItem s.items j) ∧
      (∀ it, findItem s.items id = some it →
        ∃ it2, findItem (record_return s id q pr reason).2.items id = some it2 ∧
          it2.item_id = it.item_id ∧ it2.name = it.name ∧
          it2.category = it.category ∧ it2.price = it.price ∧
          it2.quantity = it.quantity + q)) := by
  constructor
  · intro hsucc
    obtain ⟨it0, hfind0, hge⟩ := record_sale_success_inv s id q pr hsucc
    rw [record_sale_of_ok s id q pr it0 hfind0 hge]
    refine ⟨itemIds_modifyItem s.items id
        (fun x => { x with quantity := x.quantity - q }) (fun x => rfl),
      fun j hj => findItem_modifyItem_ne s.items id j
        (fun x => { x with quantity := x.quantity - q }) (fun x => rfl) hj,
      fun it hit => ?_⟩
    have hsame : it0 = it := by
      rw [hfind0] at hit
      exact (Option.some.injEq it0 it).mp hit
    subst hsame
    refine ⟨{ it0 with quantity := it0.quantity - q }, ?_, rfl, rfl, rfl, rfl, rfl⟩
    show findItem (modifyItem s.items id _) id = _
    rw [findItem_modifyItem_self s.items id
      (fun x => { x with quantity := x.quantity - q }) (fun x => rfl), hfind0]
    rfl
  · intro hsucc
    obtain ⟨it0, hfind0⟩ := record_return_success_inv s id q pr reason hsucc
    rw [record_return_of_some s id q pr reason it0 hfind0]
    refine ⟨itemIds_modifyItem s.items id
        (fun x => { x with quantity := x.quantity + q }) (fun x => rfl),
      fun j hj => findItem_modifyItem_ne s.items id j
        (fun x => { x with quantity := x.quantity + q }) (fun x => rfl) hj,
      fun it hit => ?_⟩
    have hsame : it0 = it := by
      rw [hfind0] at hit
      exact (Option.some.injEq it0 it).mp hit
    subst hsame
    refine ⟨{ it0 with quantity := it0.quantity + q }, ?_, rfl, rfl, rfl, rfl, rfl⟩
    show findItem (modifyItem s.items id _) id = _
    rw [findItem_modifyItem_self s.items id
      (fun x => { x with quantity := x.quantity + q }) (fun x => rfl), hfind0]
    rfl

theorem sale_return_frame_witness :
    (itemIds (record_sale s1 "A" 2 10).2.items = itemIds s1.items ∧
      findItem (record_sale s1 "A" 2 10).2.items "B" = findItem s1.items "B") ∧
    (itemIds (record_return s1 "B" 4 1 "worn").2.items = itemIds s1.items ∧
      findItem (record_return s1 "B" 4 1 "worn").2.items "A" = findItem s1.items "A") := by
  have hs := (sale_return_frame s1 "A" 2 10 "r").1 (by decide)
  have hr := (sale_return_frame s1 "B" 4 1 "worn").2 (by decide)
  exact ⟨⟨hs.1, hs.2.1 "B" (by decide)⟩, ⟨hr.1, hr.2.1 "A" (by decide)⟩⟩

/-- C10: whenever record_sale succeeds on an item, the resulting on-hand
quantity (the old quantity minus the requested quantity) is non-negative,
and selling exactly the full on-hand amount succeeds leaving quantity 0. -/
theorem sale_quantity_nonneg (s : StockState) (id : String) (q : ℤ) (pr : ℚ) :
    (∀ it, findItem s.items id = some it →
      (record_sale s id q pr).1 = SaleResult.success →
      findItem (record_sale s id q pr).2.items id =
        some { it with quantity := it.quantity - q } ∧ 0 ≤ it.quantity - q) ∧
    (∀ it, findItem s.items id = some it → q = it.quantity →
      (record_sale s id q pr).1 = SaleResult.success ∧
      findItem (record_sale s id q pr).2.items id = some { it with quantity := 0 }) := by
  constructor
  · intro it hfind hsucc
    obtain ⟨it0, hfind0, hge0⟩ := record_sale_success_inv s id q pr hsucc
    have hsame : it = it0 := by
      rw [hfind] at hfind0
      exact (Option.some.injEq it it0).mp hfind0
    have hge : ¬ it.quantity < q := by rw [hsame]; exact hge0
    refine ⟨?_, sub_nonneg.mpr (not_lt.mp hge)⟩
    rw [record_sale_of_ok s id q pr it hfind hge]
    show findItem (modifyItem s.items id _) id = _
    rw [findItem_modifyItem_self s.items id
      (fun x => { x with quantity := x.quantity - q }) (fun x => rfl), hfind]
    rfl
  · intro it hfind hq
    have hge : ¬ it.quantity < q := by rw [hq]; exact lt_irrefl it.quantity
    rw [record_sale_of_ok s id q pr it hfind hge]
    refine ⟨rfl, ?_⟩
    have hzero : it.quantity - q = 0 := by rw [hq]; exact sub_self it.quantity
    show findItem (modifyItem s.items id _) id = _
    rw [findItem_modifyItem_self s.items id
      (fun x => { x with quantity := x.quantity - q }) (fun x => rfl), hfind]
    simp [hzero]

theorem sale_quantity_nonneg_witness :
    (findItem (record_sale s1 "A" 2 10).2.items "A" = some { itemA with quantity := 3 } ∧
      0 ≤ itemA.quantity - 2) ∧
    ((record_sale s1 "A" 5 10).1 = SaleResult.success ∧
      findItem (record_sale s1 "A" 5 10).2.items "A" = some { itemA with quantity := 0 }) := by
  refine ⟨(sale_quantity_nonneg s1 "A" 2 10).1 itemA (by decide) (by decide), ?_⟩
  exact (sale_quantity_nonneg s1 "A" 5 10).2 itemA (by decide) (by decide)

end Inventory
